import Mathlib

/-!
Verification of the risk quantification model engine of the pyqt_fac_mvp
repository.  The Python source under app/models and app/pipeline is embedded
shallowly: pure functions become Lean functions, mutable node records become
explicit state passing over lists, Python floats become rationals where the
arithmetic is rational and reals where exp, sqrt and pi appear, and Python
exceptions become Except values.  Each section names the source file and
function it embeds.
-/

namespace PyFac

/-! ## Risk level mapping, from app/models/types.py, RiskLevel.from_score -/

/-- Embeds RiskLevel.from_score: thresholds 4 / 9 / 16 on r = L times S. -/
def riskLevelFromScore (r : ℤ) : String :=
  if r ≤ 4 then "Low"
  else if r ≤ 9 then "Medium"
  else if r ≤ 16 then "High"
  else "Extreme"

/-- Ordinal rank of a level name, following the declaration order of the
RiskLevel enumeration (Low, Medium, High, Extreme). -/
def levelRank (s : String) : ℕ :=
  if s = "Low" then 0
  else if s = "Medium" then 1
  else if s = "High" then 2
  else 3

/-! ## Model registry, from app/models/base.py, ModelRegistry

The registry is a Python dict from model_id to the model instance.  A dict is
embedded as an association list in insertion order: assignment to an existing
key replaces the value in place, assignment to a fresh key appends. -/

/-- A registered model instance: its stable model_id key plus a tag that
stands for the identity of the concrete instance object. -/
structure ModelInstance where
  modelId : String
  tag : ℕ
deriving DecidableEq, Repr

/-- Embeds ModelRegistry.register: dict assignment self._models[model.model_id] = model. -/
def registerModel (reg : List (String × ModelInstance)) (m : ModelInstance) :
    List (String × ModelInstance) :=
  if reg.any (fun p => p.1 = m.modelId) then
    reg.map (fun p => if p.1 = m.modelId then (p.1, m) else p)
  else
    reg ++ [(m.modelId, m)]

/-- Embeds ModelRegistry.get: self._models.get(model_id), returning None when
the key is absent. -/
def getModel (reg : List (String × ModelInstance)) (modelId : String) :
    Option ModelInstance :=
  (reg.find? (fun p => p.1 = modelId)).map (fun p => p.2)

/-- Embeds ModelRegistry.unregister: del self._models[model_id] guarded by a
membership test. -/
def unregisterModel (reg : List (String × ModelInstance)) (modelId : String) :
    List (String × ModelInstance) :=
  reg.filter (fun p => ¬ p.1 = modelId)

/-- Number of registry entries stored under a given key. -/
def keyCount (reg : List (String × ModelInstance)) (modelId : String) : ℕ :=
  (reg.filter (fun p => p.1 = modelId)).length

/-! ## Fault tree model, from app/models/fta.py, FTAModel

Nodes are dataclass records from app/db/dao.py: id, node_type (TOP,
INTERMEDIATE or BASIC), gate_type (AND, OR or empty), probability (an
optional float, here an optional rational) and severity (optional int).
The node_dict of _run_fta becomes a list of records looked up by id, and the
children_map becomes a function from id to child id list. -/

/-- An FTA node record (app/db/dao.py, class FTANode; only the fields the
model reads). -/
structure FTANode where
  id : ℤ
  name : String
  nodeType : String
  gateType : String
  probability : Option ℚ
  severity : Option ℤ
deriving DecidableEq, Repr

/-- Lookup in the node_dict built by _run_fta: node_dict.get(node_id). -/
def findNode (nodes : List FTANode) (i : ℤ) : Option FTANode :=
  nodes.find? (fun n => n.id = i)

/-- Embeds FTAModel._calc_node_prob, the recursive probability propagation,
without the memo dictionary (on terminating evaluations the memo only caches
values and does not change them).  The fuel argument models the Python
recursion depth limit; the claims are stated with enough fuel for the tree at
hand, and exhausted fuel returns 0. -/
def calcNodeProb : ℕ → List FTANode → (ℤ → List ℤ) → ℤ → ℚ
  | 0, _, _, _ => 0
  | fuel + 1, nodes, children, i =>
    match findNode nodes i with
    | none => 0
    | some node =>
      if node.nodeType = "BASIC" then node.probability.getD (1 / 100)
      else
        match children i with
        | [] => 0
        | cs =>
          let childProbs := cs.map (fun c => calcNodeProb fuel nodes children c)
          if node.gateType = "AND" then childProbs.prod
          else 1 - (childProbs.map (fun p => 1 - p)).prod

/-- Python truthiness in _sensitivity_analysis line 370: the expression
basic_node.probability if basic_node.probability else 0.01 yields 0.01 both
when the stored probability is None and when it is 0.0. -/
def origProbOf (p : Option ℚ) : ℚ :=
  match p with
  | none => 1 / 100
  | some q => if q = 0 then 1 / 100 else q

/-- In-place assignment basic_node.probability = v on the shared node record,
embedded as an update of the node list at the given id. -/
def setProb (nodes : List FTANode) (i : ℤ) (v : ℚ) : List FTANode :=
  nodes.map (fun n => if n.id = i then { n with probability := some v } else n)

/-- One sensitivity item (dataclass FTASensitivityItem in app/models/fta.py). -/
structure FTASensItem where
  nodeId : ℤ
  nodeName : String
  baseProbability : ℚ
  minusProb : ℚ
  plusProb : ℚ
  impactScore : ℚ
deriving DecidableEq, Repr

/-- Stable insertion step for a descending sort by key (Python sorted with
reverse=True is stable). -/
def insertDescBy (key : α → ℚ) (a : α) : List α → List α
  | [] => [a]
  | b :: bs => if key b < key a then a :: b :: bs else b :: insertDescBy key a bs

/-- Stable descending sort by key. -/
def sortDescBy (key : α → ℚ) (l : List α) : List α :=
  l.foldr (insertDescBy key) []

/-- The body of the loop over basic events in FTAModel._sensitivity_analysis:
perturb the probability of the node with id b downwards, recompute the top
probability, perturb upwards, recompute, then write back the value that the
truthiness test read at the start of the iteration.  Returns the updated
state and the recorded item. -/
def sensitivityStep (fuel : ℕ) (topId : ℤ) (children : ℤ → List ℤ)
    (delta basePTop : ℚ) (st : List FTANode) (b : ℤ) :
    List FTANode × FTASensItem :=
  let node := (findNode st b).getD ⟨b, "", "BASIC", "", none, none⟩
  let origProb := origProbOf node.probability
  let st1 := setProb st b (max 0 (origProb * (1 - delta)))
  let pTopMinus := calcNodeProb fuel st1 children topId
  let st2 := setProb st1 b (min 1 (origProb * (1 + delta)))
  let pTopPlus := calcNodeProb fuel st2 children topId
  let st3 := setProb st2 b origProb
  let impact := max |pTopMinus - basePTop| |pTopPlus - basePTop|
  (st3, ⟨b, node.name, origProb, pTopMinus, pTopPlus, impact⟩)

/-- Embeds FTAModel._sensitivity_analysis.  Returns the Top-N items sorted by
impact descending together with the final state of the shared node records
after all perturb-and-restore iterations. -/
def sensitivityAnalysis (fuel : ℕ) (topId : ℤ) (children : ℤ → List ℤ)
    (delta : ℚ) (topN : ℕ) (st0 : List FTANode) :
    List FTASensItem × List FTANode :=
  let basicIds := (st0.filter (fun n => n.nodeType = "BASIC")).map (fun n => n.id)
  if basicIds = [] then ([], st0)
  else
    let basePTop := calcNodeProb fuel st0 children topId
    let final := basicIds.foldl
      (fun acc b =>
        let (st, item) := sensitivityStep fuel topId children delta basePTop acc.2 b
        (acc.1 ++ [item], st))
      (([] : List FTASensItem), st0)
    ((sortDescBy (fun it => it.impactScore) final.1).take topN, final.2)

/-- Embeds FTAModel._probability_to_likelihood: thresholds 1e-5, 1e-4, 1e-3,
1e-2 on the top event probability. -/
def probToLikelihood (p : ℚ) : ℤ :=
  if p < 1 / 100000 then 1
  else if p < 1 / 10000 then 2
  else if p < 1 / 1000 then 3
  else if p < 1 / 100 then 4
  else 5

/-- Embeds FTAModel._get_risk_level (same thresholds as RiskLevel.from_score,
duplicated in app/models/fta.py). -/
def ftaGetRiskLevel (r : ℤ) : String :=
  if r ≤ 4 then "Low"
  else if r ≤ 9 then "Medium"
  else if r ≤ 16 then "High"
  else "Extreme"

/-- The scalar fields of the FTAResult dataclass.  The per-node contribution
list and the sensitivity list are not carried here; the sensitivity loop is
embedded separately as sensitivityAnalysis. -/
structure FTARunResult where
  topEventName : String
  topEventProbability : ℚ
  likelihoodLevel : ℤ
  severityLevel : ℤ
  riskScore : ℤ
  riskLevel : String
deriving DecidableEq, Repr

/-- Embeds the branches of FTAModel._run_fta that produce the scalar result:
the empty node set and the missing TOP node return the defined no-data
results, otherwise the top probability is propagated and mapped to levels.
Line 221 uses Python truthiness on top_node.severity, so severity 0 also
falls back to the default_severity parameter. -/
def runFTACore (fuel : ℕ) (nodes : List FTANode) (children : ℤ → List ℤ)
    (defaultSeverity : ℤ) : FTARunResult :=
  if nodes = [] then ⟨"无数据", 0, 1, 1, 1, "Low"⟩
  else
    match nodes.find? (fun n => n.nodeType = "TOP") with
    | none => ⟨"未找到顶事件", 0, 1, 1, 1, "Low"⟩
    | some top =>
      let pTop := calcNodeProb fuel nodes children top.id
      let l := probToLikelihood pTop
      let s := match top.severity with
        | none => defaultSeverity
        | some v => if v = 0 then defaultSeverity else v
      let r := l * s
      ⟨top.name, pTop, l, s, r, ftaGetRiskLevel r⟩

/-- The model-boundary outcome of FTAModel.run: the success flag and error
message of the returned ModelResult plus the payload when successful. -/
structure FTAOutcome where
  success : Bool
  errorMessage : String
  result : Option FTARunResult
deriving DecidableEq, Repr

/-- Embeds FTAModel.run: the guard is Python truthiness on
context.get("mission_id"), so both a missing mission_id and mission_id 0
yield the failed result. -/
def runFTA (missionId : Option ℤ) (fuel : ℕ) (nodes : List FTANode)
    (children : ℤ → List ℤ) (defaultSeverity : ℤ) : FTAOutcome :=
  if missionId.getD 0 = 0 then ⟨false, "缺少mission_id", none⟩
  else ⟨true, "", some (runFTACore fuel nodes children defaultSeverity)⟩

/-! ## Risk matrix model, from app/models/risk_matrix.py, RiskMatrixModel.run

The 5 by 5 matrix is a Python list of lists; indexing follows Python
semantics where an index in [-len, -1] wraps around and anything outside
[-len, len-1] raises IndexError, which the except block of run turns into a
failed ModelResult.  The matrix_events id index is not carried (no claim
touches it). -/

/-- A risk event record (app/db/dao.py, class RiskEvent; the fields run
reads). -/
structure RMEvent where
  id : ℤ
  name : String
  likelihood : ℤ
  severity : ℤ
deriving DecidableEq, Repr

/-- A per-event result (app/models/types.py, RiskEventResult). -/
structure RMEventResult where
  id : ℤ
  name : String
  likelihood : ℤ
  severity : ℤ
  riskScore : ℤ
  level : String
deriving DecidableEq, Repr

/-- The per-event computation of RiskMatrixModel.run lines 108-120:
r = likelihood times severity and the level string from RiskLevel.from_score. -/
def rmEventResult (e : RMEvent) : RMEventResult :=
  ⟨e.id, e.name, e.likelihood, e.severity, e.likelihood * e.severity,
    riskLevelFromScore (e.likelihood * e.severity)⟩

/-- Python list subscript semantics for a list of the given length: negative
indices wrap once, out-of-range indices raise IndexError with this message. -/
def pyListIndex (len : ℕ) (i : ℤ) : Except String ℕ :=
  if 0 ≤ i ∧ i < (len : ℤ) then .ok i.toNat
  else if -(len : ℤ) ≤ i ∧ i < 0 then .ok (i + len).toNat
  else .error "list index out of range"

/-- The initial 5 by 5 zero matrix from the comprehension on line 128. -/
def rmZeroMatrix : List (List ℕ) :=
  List.replicate 5 (List.replicate 5 0)

/-- Embeds the matrix-filling loop of lines 131-134: for each event result,
increment matrix_data at row likelihood - 1, column severity - 1, with Python
subscript semantics. -/
def rmBuildMatrix (ers : List RMEventResult) : Except String (List (List ℕ)) :=
  ers.foldlM
    (fun m er => do
      let i ← pyListIndex 5 (er.likelihood - 1)
      let j ← pyListIndex 5 (er.severity - 1)
      let row := m.getD i []
      pure (m.set i (row.set j (row.getD j 0 + 1))))
    rmZeroMatrix

/-- The level_counts dictionary with its four fixed keys. -/
structure LevelCounts where
  low : ℕ
  medium : ℕ
  high : ℕ
  extreme : ℕ
deriving DecidableEq, Repr

/-- Embeds the counting loop of lines 141-143. -/
def rmCountLevels (ers : List RMEventResult) : LevelCounts :=
  ers.foldl
    (fun c er =>
      if er.level = "Low" then { c with low := c.low + 1 }
      else if er.level = "Medium" then { c with medium := c.medium + 1 }
      else if er.level = "High" then { c with high := c.high + 1 }
      else { c with extreme := c.extreme + 1 })
    ⟨0, 0, 0, 0⟩

/-- The fields of RiskMatrixResult that the claims touch (matrix_events and
the display rounding of avg_risk are omitted). -/
structure RMData where
  events : List RMEventResult
  topN : List RMEventResult
  matrixData : List (List ℕ)
  levelCounts : LevelCounts
  totalRisk : ℤ
  avgRisk : ℚ
deriving DecidableEq, Repr

/-- The empty-mission payload of RiskMatrixModel.run lines 85-104: a zero
matrix, zero counts and zero totals. -/
def rmEmptyData : RMData :=
  ⟨[], [], rmZeroMatrix, ⟨0, 0, 0, 0⟩, 0, 0⟩

/-- Embeds the body of the try block of RiskMatrixModel.run for a non-empty
event list: per-event scoring, stable descending sort, Top-N, matrix filling
(the step that can raise IndexError), level counts and totals. -/
def riskMatrixCore (events : List RMEvent) (topN : ℕ) : Except String RMData := do
  let ers := events.map rmEventResult
  let sorted := sortDescBy (fun er => (er.riskScore : ℚ)) ers
  let matrix ← rmBuildMatrix ers
  let counts := rmCountLevels ers
  let total : ℤ := (ers.map (fun er => er.riskScore)).sum
  let avg : ℚ := if ers = [] then 0 else (total : ℚ) / (ers.length : ℚ)
  pure ⟨ers, sorted.take topN, matrix, counts, total, avg⟩

/-- The model-boundary outcome of RiskMatrixModel.run. -/
structure RMOutcome where
  success : Bool
  errorMessage : String
  data : Option RMData
deriving DecidableEq, Repr

/-- Embeds RiskMatrixModel.run: mission_id None is rejected up front, an
empty event set returns the successful zeroed payload, and any exception
raised inside the try block is caught and surfaced as a failed ModelResult
carrying the exception text. -/
def runRiskMatrix (missionId : Option ℤ) (events : List RMEvent) (topN : ℕ) :
    RMOutcome :=
  match missionId with
  | none => ⟨false, "mission_id 不能为空", none⟩
  | some _ =>
    if events.isEmpty then ⟨true, "", some rmEmptyData⟩
    else
      match riskMatrixCore events topN with
      | .ok d => ⟨true, "", some d⟩
      | .error e => ⟨false, e, none⟩

/-! ## Improved AHP model, from app/models/ahp_improved.py, AHPImprovedModel._run_ahp

One record per indicator as assembled by _parse_dataset or
_get_indicator_values: current value x, weight w, reference mean mu and
reference standard deviation sigma.  The arithmetic uses exp, sqrt and pi, so
it is embedded over the reals.  The display rounding (round to 4 decimals)
applied when packaging AHPIndicatorResult is omitted; the risk level is
computed from the unrounded total score exactly as on line 288. -/

/-- One indicator input of _run_ahp. -/
structure AHPIndicator where
  x : ℝ
  w : ℝ
  mu : ℝ
  sigma : ℝ

/-- The sigma floor of lines 225-226: a sigma below 1e-10 is replaced by
1e-6 before any division. -/
noncomputable def flooredSigma (s : ℝ) : ℝ :=
  if s < 1e-10 then 1e-6 else s

/-- z = (x - mu) / sigma with the floored sigma (line 229). -/
noncomputable def zScore (d : AHPIndicator) : ℝ :=
  (d.x - d.mu) / flooredSigma d.sigma

/-- The normal-density correction factor of line 233:
c = (1 / (sigma * sqrt (2 pi))) * exp (-0.5 * z * z). -/
noncomputable def corrFactor (d : AHPIndicator) : ℝ :=
  (1 / (flooredSigma d.sigma * Real.sqrt (2 * Real.pi))) *
    Real.exp (-0.5 * zScore d * zScore d)

/-- The accumulated denominator of line 236: sum of w * c over all
indicators. -/
noncomputable def weightCorrectionSum (ds : List AHPIndicator) : ℝ :=
  (ds.map (fun d => d.w * corrFactor d)).sum

/-- The corrected weight of lines 255-258: (w * c) / sum when the sum is
positive, otherwise the fallback w / n. -/
noncomputable def correctedWeight (ds : List AHPIndicator) (d : AHPIndicator) : ℝ :=
  if 0 < weightCorrectionSum ds then
    d.w * corrFactor d / weightCorrectionSum ds
  else
    d.w / (ds.length : ℝ)

/-- The normalized risk score of lines 262-267: a sigmoid of the z-score with
the sign selected by the risk_direction parameter. -/
noncomputable def normalizedRisk (direction : String) (d : AHPIndicator) : ℝ :=
  if direction = "higher_worse" then 1 / (1 + Real.exp (-zScore d))
  else if direction = "lower_worse" then 1 / (1 + Real.exp (zScore d))
  else 1 / (1 + Real.exp (-|zScore d|))

/-- The composite score of lines 270-271: the sum over indicators of
corrected weight times normalized risk. -/
noncomputable def totalScore (direction : String) (ds : List AHPIndicator) : ℝ :=
  (ds.map (fun d => correctedWeight ds d * normalizedRisk direction d)).sum

/-- Embeds AHPImprovedModel._score_to_level: thresholds 0.25, 0.5, 0.75. -/
noncomputable def scoreToLevel (score : ℝ) : String :=
  if score < 0.25 then "Low"
  else if score < 0.5 then "Medium"
  else if score < 0.75 then "High"
  else "Extreme"

/-! ## Simplified AHP score, from app/models/monte_carlo.py,
MonteCarloModel._calc_ahp_score -/

/-- One indicator dictionary as read by _calc_ahp_score (after the dict.get
defaults have been resolved). -/
structure MCIndicator where
  value : ℝ
  weight : ℝ
  mu : ℝ
  sigma : ℝ

/-- Lines 547-549: the weight normalizer, replaced by the indicator count
when the raw weights sum to zero. -/
noncomputable def mcTotalWeight (ds : List MCIndicator) : ℝ :=
  let t := (ds.map (fun d => d.weight)).sum
  if t = 0 then (ds.length : ℝ) else t

/-- The z-score of line 564 with the same sigma floor as _run_ahp. -/
noncomputable def mcZ (d : MCIndicator) : ℝ :=
  (d.value - d.mu) / flooredSigma d.sigma

/-- The correction factor of line 565. -/
noncomputable def mcCorr (d : MCIndicator) : ℝ :=
  (1 / (flooredSigma d.sigma * Real.sqrt (2 * Real.pi))) *
    Real.exp (-0.5 * mcZ d * mcZ d)

/-- The accumulated denominator of line 567, over the normalized weights. -/
noncomputable def mcWeightCorrectionSum (ds : List MCIndicator) : ℝ :=
  (ds.map (fun d => d.weight / mcTotalWeight ds * mcCorr d)).sum

/-- The corrected weight of lines 571-574: here the fallback is the uniform
1 / n, unlike the w / n fallback of _run_ahp. -/
noncomputable def mcCorrectedWeight (ds : List MCIndicator) (d : MCIndicator) : ℝ :=
  if 0 < mcWeightCorrectionSum ds then
    d.weight / mcTotalWeight ds * mcCorr d / mcWeightCorrectionSum ds
  else
    1 / (ds.length : ℝ)

/-- The score of lines 576-579: sum of corrected weight times sigmoid of z
(higher_worse is the only direction here). -/
noncomputable def mcCalcAhpScore (ds : List MCIndicator) : ℝ :=
  (ds.map (fun d => mcCorrectedWeight ds d * (1 / (1 + Real.exp (-mcZ d))))).sum

/-! ## Discrete distribution statistics, from app/pipeline/risk_identification.py,
RiskIdentificationPipeline._get_mu_sigma, the discrete branch (lines 308-315) -/

/-- The discrete branch of _get_mu_sigma: probs are replaced by the uniform
distribution exactly when their length differs from the values length; mu is
the prob-weighted mean, sigma the square root of the clamped prob-weighted
variance. -/
noncomputable def discreteMuSigma (values probs : List ℝ) : ℝ × ℝ :=
  let ps := if probs.length ≠ values.length then
    List.replicate values.length ((1 : ℝ) / (values.length : ℝ))
  else probs
  let mu := (List.zipWith (fun v p => v * p) values ps).sum
  let variance := (List.zipWith (fun v p => p * (v - mu) ^ 2) values ps).sum
  (mu, Real.sqrt (max 0 variance))

/-- The call-site defaults of lines 309-310: a missing values list defaults
to the single stored value, a missing probs list to the single probability
1.0. -/
noncomputable def getMuSigmaDiscrete (values probs : Option (List ℝ)) (x : ℝ) :
    ℝ × ℝ :=
  discreteMuSigma (values.getD [x]) (probs.getD [1])

/-! ## Monte Carlo sampling loop, from app/models/monte_carlo.py,
MonteCarloModel.run and run_risk_matrix

The numpy global generator is embedded as an abstract deterministic state
machine: init maps a seed to a generator state and next draws one uniform
variate and advances the state.  np.random.seed(seed) overwrites the ambient
state with init seed, which is exactly what run does when the random_seed
parameter is nonnegative.  np.random.choice over candidates with given
probabilities is one inverse-CDF lookup on one draw. -/

/-- Inverse-CDF selection of a candidate from cumulative probabilities. -/
def chooseByCum : List ℤ → List ℚ → ℚ → ℤ
  | [], _, _ => 0
  | c :: _, [], _ => c
  | c :: cs, p :: ps, u => if u < p then c else chooseByCum cs ps (u - p)

/-- Embeds MonteCarloModel._sample_discrete: the nominal value with
probability 0.6 and the two neighbours with probability 0.2 each, dropped
and renormalized at the domain boundaries. -/
def sampleDiscreteMC {G : Type} (next : G → ℚ × G)
    (nominal minVal maxVal : ℤ) (g : G) : ℤ × G :=
  let candidates := [nominal] ++
    (if minVal ≤ nominal - 1 then [nominal - 1] else []) ++
    (if nominal + 1 ≤ maxVal then [nominal + 1] else [])
  let probs : List ℚ := [6 / 10] ++
    (if minVal ≤ nominal - 1 then [2 / 10] else []) ++
    (if nominal + 1 ≤ maxVal then [2 / 10] else [])
  let total := probs.sum
  let normed := probs.map (fun p => p / total)
  let (u, gNext) := next g
  (chooseByCum candidates normed u, gNext)

/-- One sample of the loop body of run_risk_matrix lines 329-336: draw L and
S for every event and record r = l * s. -/
def mcSampleOnce {G : Type} (next : G → ℚ × G) (events : List RMEvent)
    (g : G) : List ℤ × G :=
  events.foldl
    (fun acc e =>
      let (l, g1) := sampleDiscreteMC next e.likelihood 1 5 acc.2
      let (s, g2) := sampleDiscreteMC next e.severity 1 5 g1
      (acc.1 ++ [l * s], g2))
    (([] : List ℤ), g)

/-- The outer sampling loop over n samples, threading the generator state. -/
def mcSampleLoop {G : Type} (next : G → ℚ × G) (events : List RMEvent) :
    ℕ → G → List (List ℤ) × G
  | 0, g => ([], g)
  | n + 1, g =>
    let (rs, g1) := mcSampleOnce next events g
    let (rest, g2) := mcSampleLoop next events n g1
    (rs :: rest, g2)

/-- The deterministic aggregate outputs of run_risk_matrix: the per-sample R
values per event, the total-risk histogram data, and the mean statistics
(the remaining statistics of MCEventStats and MCGlobalStats are likewise
functions of the sample arrays). -/
structure MCRunOutput where
  samples : List (List ℤ)
  totals : List ℤ
  eventMeans : List ℚ
  totalMean : ℚ
deriving DecidableEq, Repr

/-- Embeds MonteCarloModel.run driving run_risk_matrix: reseed the generator
when the random_seed parameter is nonnegative (lines 214-215), then sample n
times and aggregate.  The ambient generator state g0 is used only when the
seed is negative. -/
def mcRunRiskMatrix {G : Type} (init : ℕ → G) (next : G → ℚ × G) (seed : ℤ)
    (events : List RMEvent) (n : ℕ) (g0 : G) : MCRunOutput :=
  let g := if 0 ≤ seed then init seed.toNat else g0
  let (samples, _) := mcSampleLoop next events n g
  let totals := samples.map (fun rs => rs.sum)
  let eventMeans := (List.range events.length).map
    (fun i =>
      if samples.length = 0 then 0
      else (((samples.map (fun rs => rs.getD i 0)).sum : ℚ) / (samples.length : ℚ)))
  let totalMean : ℚ :=
    if totals.length = 0 then 0 else ((totals.sum : ℚ) / (totals.length : ℚ))
  ⟨samples, totals, eventMeans, totalMean⟩

/-! ## Concrete inputs used by individual claims -/

/-- A two-node fault tree whose single BASIC node carries stored
probability 0. -/
def zeroProbTree : List FTANode :=
  [⟨1, "top", "TOP", "OR", none, none⟩, ⟨2, "leaf", "BASIC", "", some 0, none⟩]

/-- Edges of zeroProbTree: the TOP node 1 has the single child 2. -/
def zeroProbChildren : ℤ → List ℤ :=
  fun i => if i = 1 then [2] else []

/-- An AND gate over two BASIC events of probability one half. -/
def andHalfTree : List FTANode :=
  [⟨1, "top", "TOP", "AND", none, none⟩,
   ⟨2, "a", "BASIC", "", some (1 / 2), none⟩,
   ⟨3, "b", "BASIC", "", some (1 / 2), none⟩]

/-- An OR gate over two BASIC events of probability one half. -/
def orHalfTree : List FTANode :=
  [⟨1, "top", "TOP", "OR", none, none⟩,
   ⟨2, "a", "BASIC", "", some (1 / 2), none⟩,
   ⟨3, "b", "BASIC", "", some (1 / 2), none⟩]

/-- Edges shared by andHalfTree and orHalfTree: node 1 has children 2, 3. -/
def halfTreeChildren : ℤ → List ℤ :=
  fun i => if i = 1 then [2, 3] else []

/-! # Theorems -/

/-! ## Shared helper lemmas -/

theorem flooredSigma_pos (s : ℝ) : 0 < flooredSigma s := by
  unfold flooredSigma
  split_ifs with h
  · norm_num
  · push_neg at h
    have : (0 : ℝ) < 1e-10 := by norm_num
    linarith

theorem sqrtTwoPi_pos : 0 < Real.sqrt (2 * Real.pi) :=
  Real.sqrt_pos.mpr (by positivity)

theorem corrFactor_pos (d : AHPIndicator) : 0 < corrFactor d := by
  unfold corrFactor
  exact mul_pos
    (div_pos one_pos (mul_pos (flooredSigma_pos d.sigma) sqrtTwoPi_pos))
    (Real.exp_pos _)

theorem corrFactor_of_center (d : AHPIndicator) (h : d.x = d.mu) :
    corrFactor d = 1 / (flooredSigma d.sigma * Real.sqrt (2 * Real.pi)) := by
  have hz : zScore d = 0 := by
    unfold zScore
    rw [h, sub_self, zero_div]
  unfold corrFactor
  rw [hz]
  simp [Real.exp_zero]

theorem list_sum_map_mul_right {α : Type} (l : List α) (f : α → ℝ) (c : ℝ) :
    (l.map (fun a => f a * c)).sum = (l.map f).sum * c := by
  induction l with
  | nil => simp
  | cons a t ih => simp [ih, add_mul]

theorem list_sum_map_div {α : Type} (l : List α) (f : α → ℝ) (c : ℝ) :
    (l.map (fun a => f a / c)).sum = (l.map f).sum / c := by
  simpa [div_eq_mul_inv] using list_sum_map_mul_right l f c⁻¹

theorem list_sum_zero_of_nonneg (l : List ℝ) (h0 : ∀ x ∈ l, 0 ≤ x)
    (hs : l.sum = 0) : ∀ x ∈ l, x = 0 := by
  induction l with
  | nil => simp
  | cons a t ih =>
    have ha : 0 ≤ a := h0 a (by simp)
    have ht : 0 ≤ t.sum := List.sum_nonneg (fun x hx => h0 x (by simp [hx]))
    have hsum : a + t.sum = 0 := by simpa using hs
    have ha0 : a = 0 := by linarith
    have ht0 : t.sum = 0 := by linarith
    intro x hx
    rcases List.mem_cons.mp hx with rfl | hx
    · exact ha0
    · exact ih (fun y hy => h0 y (by simp [hy])) ht0 x hx

theorem ahp_weights_zero_of_not_pos (ds : List AHPIndicator)
    (hw : ∀ d ∈ ds, 0 ≤ d.w) (h : ¬ 0 < weightCorrectionSum ds) :
    ∀ d ∈ ds, d.w = 0 := by
  have hterm : ∀ x ∈ ds.map (fun d => d.w * corrFactor d), 0 ≤ x := by
    intro x hx
    rcases List.mem_map.mp hx with ⟨d, hd, rfl⟩
    exact mul_nonneg (hw d hd) (le_of_lt (corrFactor_pos d))
  have hS0 : weightCorrectionSum ds = 0 := by
    have hge : 0 ≤ weightCorrectionSum ds := List.sum_nonneg hterm
    have hle : weightCorrectionSum ds ≤ 0 := not_lt.mp h
    linarith
  intro d hd
  have hz := list_sum_zero_of_nonneg _ hterm hS0 (d.w * corrFactor d)
    (List.mem_map.mpr ⟨d, hd, rfl⟩)
  have hc := corrFactor_pos d
  rcases mul_eq_zero.mp hz with h1 | h2
  · exact h1
  · exact absurd h2 (ne_of_gt hc)

/-! ## Claim C3 -/

/-- Claim C3: risk matrix scoring.  For every event with L and S in 1..5 the
computed risk score is L times S and lies in 1..25, the level of an event is
the threshold mapping of its score, the mapping is monotone non-decreasing in
the score, and the thresholds are exact at the boundaries 4, 5, 9, 10, 16
and 17. -/
theorem risk_matrix_score_and_level :
    (∀ e : RMEvent, 1 ≤ e.likelihood → e.likelihood ≤ 5 →
      1 ≤ e.severity → e.severity ≤ 5 →
      (rmEventResult e).riskScore = e.likelihood * e.severity ∧
      1 ≤ (rmEventResult e).riskScore ∧ (rmEventResult e).riskScore ≤ 25 ∧
      (rmEventResult e).level = riskLevelFromScore (rmEventResult e).riskScore) ∧
    (∀ r s : ℤ, r ≤ s →
      levelRank (riskLevelFromScore r) ≤ levelRank (riskLevelFromScore s)) ∧
    riskLevelFromScore 4 = "Low" ∧ riskLevelFromScore 5 = "Medium" ∧
    riskLevelFromScore 9 = "Medium" ∧ riskLevelFromScore 10 = "High" ∧
    riskLevelFromScore 16 = "High" ∧ riskLevelFromScore 17 = "Extreme" := by
  refine ⟨?_, ?_, by decide, by decide, by decide, by decide, by decide, by decide⟩
  · intro e h1 h2 h3 h4
    refine ⟨rfl, ?_, ?_, rfl⟩
    · show (1 : ℤ) ≤ e.likelihood * e.severity
      nlinarith
    · show e.likelihood * e.severity ≤ 25
      nlinarith
  · intro r s h
    unfold riskLevelFromScore
    split_ifs <;> first | decide | (exfalso; omega)

/-- Witness for claim C3: the per-event part applied at the event with L = 3,
S = 5. -/
theorem risk_matrix_score_and_level_witness :
    (rmEventResult ⟨1, "evt", 3, 5⟩).riskScore = 3 * 5 ∧
    1 ≤ (rmEventResult ⟨1, "evt", 3, 5⟩).riskScore ∧
    (rmEventResult ⟨1, "evt", 3, 5⟩).riskScore ≤ 25 ∧
    (rmEventResult ⟨1, "evt", 3, 5⟩).level =
      riskLevelFromScore (rmEventResult ⟨1, "evt", 3, 5⟩).riskScore :=
  risk_matrix_score_and_level.1 ⟨1, "evt", 3, 5⟩
    (by decide) (by decide) (by decide) (by decide)

/-! ## Claim C9 -/

/-- Claim C9: Monte Carlo seed determinism.  When the random_seed parameter
is nonnegative, the run reseeds the generator, so the whole output (per-event
sample statistics, global statistics and histogram data) is independent of
the ambient generator state: two invocations over the same stored inputs
agree for every sample count. -/
theorem mc_seed_determinism {G : Type} (init : ℕ → G) (next : G → ℚ × G)
    (seed : ℤ) (events : List RMEvent) (n : ℕ) (g0 g1 : G)
    (h : 0 ≤ seed) :
    mcRunRiskMatrix init next seed events n g0 =
      mcRunRiskMatrix init next seed events n g1 := by
  simp only [mcRunRiskMatrix, if_pos h]

/-- Witness for claim C9: a concrete generator, seed 42, one event, two
samples, and two different ambient states. -/
theorem mc_seed_determinism_witness :
    mcRunRiskMatrix (fun s => s) (fun g => ((g : ℚ) / 10, g + 1)) 42
      [⟨1, "e", 3, 4⟩] 2 0 =
    mcRunRiskMatrix (fun s => s) (fun g => ((g : ℚ) / 10, g + 1)) 42
      [⟨1, "e", 3, 4⟩] 2 99 :=
  mc_seed_determinism (fun s => s) (fun g => ((g : ℚ) / 10, g + 1)) 42
    [⟨1, "e", 3, 4⟩] 2 0 99 (by decide)

/-! ## Claim C10 -/

theorem find_map_replace (m : ModelInstance) :
    ∀ l : List (String × ModelInstance),
      l.any (fun p => p.1 = m.modelId) = true →
      (l.map (fun p => if p.1 = m.modelId then (p.1, m) else p)).find?
          (fun p => p.1 = m.modelId) = some (m.modelId, m) := by
  intro l
  induction l with
  | nil => intro h; simp at h
  | cons p ps ih =>
    intro h
    by_cases hp : p.1 = m.modelId
    · simp [List.find?_cons, hp]
    · have h2 : ps.any (fun q => q.1 = m.modelId) = true := by
        simpa [List.any_cons, hp] using h
      simp [List.find?_cons, hp, ih h2]

theorem find_absent_append (m : ModelInstance) :
    ∀ l : List (String × ModelInstance),
      l.any (fun p => p.1 = m.modelId) = false →
      (l ++ [(m.modelId, m)]).find? (fun p => p.1 = m.modelId) =
        some (m.modelId, m) := by
  intro l
  induction l with
  | nil => simp [List.find?_cons]
  | cons p ps ih =>
    intro h
    rw [List.any_cons] at h
    have hp : ¬ p.1 = m.modelId := by
      intro hc
      simp [hc] at h
    have h2 : ps.any (fun q => q.1 = m.modelId) = false := by
      simpa [hp] using h
    simp [List.find?_cons, hp, ih h2]

theorem keyCount_map_replace (m : ModelInstance) (k : String) :
    ∀ l : List (String × ModelInstance),
      keyCount (l.map (fun p => if p.1 = m.modelId then (p.1, m) else p)) k =
        keyCount l k := by
  intro l
  induction l with
  | nil => rfl
  | cons p ps ih =>
    have hkey : ((if p.1 = m.modelId then (p.1, m) else p)).1 = p.1 := by
      split_ifs <;> rfl
    unfold keyCount at *
    rw [List.map_cons, List.filter_cons, List.filter_cons, hkey]
    by_cases hp : p.1 = k
    · simp [hp, ih]
    · simp [hp, ih]

theorem keyCount_absent (m : ModelInstance)
    (l : List (String × ModelInstance))
    (h : l.any (fun p => p.1 = m.modelId) = false) :
    keyCount l m.modelId = 0 := by
  unfold keyCount
  rw [List.length_eq_zero]
  rw [List.filter_eq_nil_iff]
  intro p hp
  have := List.any_eq_false.mp h p hp
  simpa using this

/-- Claim C10: registry round-trip.  Immediately after register, get on the
model id returns exactly the registered instance; get of an id never
registered returns none, as does get after unregister; registering a second
instance under an existing id replaces the stored instance; and register
preserves the invariant that at most one entry is stored per model id. -/
theorem registry_roundtrip :
    (∀ (reg : List (String × ModelInstance)) (m : ModelInstance),
      getModel (registerModel reg m) m.modelId = some m) ∧
    (∀ (reg : List (String × ModelInstance)) (k : String),
      (∀ p ∈ reg, p.1 ≠ k) → getModel reg k = none) ∧
    (∀ (reg : List (String × ModelInstance)) (k : String),
      getModel (unregisterModel reg k) k = none) ∧
    (∀ k : String, keyCount ([] : List (String × ModelInstance)) k = 0) ∧
    (∀ (reg : List (String × ModelInstance)) (m : ModelInstance) (k : String),
      keyCount reg k ≤ 1 → keyCount (registerModel reg m) k ≤ 1) ∧
    (∀ (reg : List (String × ModelInstance)) (m1 m2 : ModelInstance),
      m1.modelId = m2.modelId →
      getModel (registerModel (registerModel reg m1) m2) m1.modelId = some m2) := by
  have hget : ∀ (reg : List (String × ModelInstance)) (m : ModelInstance),
      getModel (registerModel reg m) m.modelId = some m := by
    intro reg m
    unfold registerModel getModel
    by_cases h : reg.any (fun p => p.1 = m.modelId)
    · rw [if_pos h, find_map_replace m reg h]
      rfl
    · rw [if_neg h, find_absent_append m reg (Bool.eq_false_iff.mpr h)]
      rfl
  refine ⟨hget, ?_, ?_, ?_, ?_, ?_⟩
  · intro reg k h
    unfold getModel
    have hfind : List.find? (fun p => p.1 = k) reg = none := by
      rw [List.find?_eq_none]
      intro p hp
      simpa using h p hp
    rw [hfind]
    rfl
  · intro reg k
    unfold getModel unregisterModel
    have hfind : List.find? (fun p => p.1 = k)
        (reg.filter (fun p => ¬ p.1 = k)) = none := by
      rw [List.find?_eq_none]
      intro p hp
      have := List.of_mem_filter hp
      simpa using this
    rw [hfind]
    rfl
  · intro k
    rfl
  · intro reg m k h
    unfold registerModel
    by_cases hany : reg.any (fun p => p.1 = m.modelId)
    · rw [if_pos hany, keyCount_map_replace m k reg]
      exact h
    · rw [if_neg hany]
      have habs := keyCount_absent m reg (Bool.eq_false_iff.mpr hany)
      unfold keyCount at *
      rw [List.filter_append, List.length_append]
      by_cases hk : m.modelId = k
      · subst hk
        simp [habs]
      · have : ([(m.modelId, m)].filter (fun p => p.1 = k)).length = 0 := by
          simp [List.filter_cons, hk]
        omega
  · intro reg m1 m2 hid
    rw [hid]
    exact hget (registerModel reg m1) m2

/-- Witness for claim C10: register one instance into the empty registry and
get it back, and the uniqueness invariant applied concretely. -/
theorem registry_roundtrip_witness :
    getModel (registerModel [] ⟨"risk_matrix", 7⟩) "risk_matrix" =
      some ⟨"risk_matrix", 7⟩ ∧
    keyCount (registerModel [("fta", ⟨"fta", 1⟩)] ⟨"fta", 2⟩) "fta" ≤ 1 :=
  ⟨registry_roundtrip.1 [] ⟨"risk_matrix", 7⟩,
   registry_roundtrip.2.2.2.2.1 [("fta", ⟨"fta", 1⟩)] ⟨"fta", 2⟩ "fta"
     (by decide)⟩

/-! ## Claim C2 -/

/-- Claim C2: FTA probability propagation.  With fuel left, a BASIC node
evaluates to its stored probability with default 0.01 when none is set; a
non-basic node with no children evaluates to 0; an AND gate evaluates to the
product of its children; any other gate evaluates to one minus the product of
the complements; and concretely an AND gate over two probability-one-half
basic events yields 0.25 while an OR gate over the same children yields
0.75. -/
theorem fta_probability_propagation :
    (∀ (fuel : ℕ) (nodes : List FTANode) (children : ℤ → List ℤ) (i : ℤ)
        (node : FTANode), findNode nodes i = some node →
      node.nodeType = "BASIC" →
      calcNodeProb (fuel + 1) nodes children i = node.probability.getD (1 / 100)) ∧
    (∀ (fuel : ℕ) (nodes : List FTANode) (children : ℤ → List ℤ) (i : ℤ)
        (node : FTANode), findNode nodes i = some node →
      node.nodeType ≠ "BASIC" → children i = [] →
      calcNodeProb (fuel + 1) nodes children i = 0) ∧
    (∀ (fuel : ℕ) (nodes : List FTANode) (children : ℤ → List ℤ) (i : ℤ)
        (node : FTANode), findNode nodes i = some node →
      node.nodeType ≠ "BASIC" → node.gateType = "AND" → children i ≠ [] →
      calcNodeProb (fuel + 1) nodes children i =
        ((children i).map (fun c => calcNodeProb fuel nodes children c)).prod) ∧
    (∀ (fuel : ℕ) (nodes : List FTANode) (children : ℤ → List ℤ) (i : ℤ)
        (node : FTANode), findNode nodes i = some node →
      node.nodeType ≠ "BASIC" → node.gateType ≠ "AND" → children i ≠ [] →
      calcNodeProb (fuel + 1) nodes children i =
        1 - (((children i).map (fun c => calcNodeProb fuel nodes children c)).map
          (fun p => 1 - p)).prod) ∧
    calcNodeProb 2 andHalfTree halfTreeChildren 1 = 1 / 4 ∧
    calcNodeProb 2 orHalfTree halfTreeChildren 1 = 3 / 4 := by
  refine ⟨?_, ?_, ?_, ?_, ?_, ?_⟩
  · intro fuel nodes children i node hf hb
    rw [calcNodeProb, hf]
    simp [hb]
  · intro fuel nodes children i node hf hb hcs
    rw [calcNodeProb, hf, hcs]
    simp [hb]
  · intro fuel nodes children i node hf hb hand hcs
    obtain ⟨c, cs, hc⟩ := List.exists_cons_of_ne_nil hcs
    rw [calcNodeProb, hf, hc]
    simp [hb, hand]
  · intro fuel nodes children i node hf hb hand hcs
    obtain ⟨c, cs, hc⟩ := List.exists_cons_of_ne_nil hcs
    rw [calcNodeProb, hf, hc]
    simp [hb, hand]
  · norm_num [calcNodeProb, andHalfTree, halfTreeChildren, findNode,
      List.find?]
    decide
  · norm_num [calcNodeProb, orHalfTree, halfTreeChildren, findNode,
      List.find?]
    simp

/-- Witness for claim C2: the BASIC case applied to a leaf node with no
stored probability, which evaluates to the 0.01 default. -/
theorem fta_probability_propagation_witness :
    calcNodeProb 1 [⟨5, "x", "BASIC", "", none, none⟩] (fun _ => []) 5 =
      (none : Option ℚ).getD (1 / 100) :=
  fta_probability_propagation.1 0 [⟨5, "x", "BASIC", "", none, none⟩]
    (fun _ => []) 5 ⟨5, "x", "BASIC", "", none, none⟩ (by rfl) (by rfl)

/-! ## Claim C1 -/

/-- Claim C1 fails on the code: in the fault tree zeroProbTree the BASIC
node 2 stores probability 0 before sensitivity analysis, but after
sensitivityAnalysis completes its stored probability is 0.01, because the
truthiness test on line 370 of app/models/fta.py reads a stored 0.0 as
missing and the restore on line 385 therefore writes back 0.01.  The stored
value of a BASIC node is not in general restored, contradicting the
restoration round-trip stated by the claim and the restore comment in the
source. -/
theorem fta_sensitivity_zero_prob_not_restored :
    (findNode zeroProbTree 2).map (fun n => n.probability) = some (some 0) ∧
    (findNode (sensitivityAnalysis 3 1 zeroProbChildren (1 / 10) 10
        zeroProbTree).2 2).map (fun n => n.probability) =
      some (some (1 / 100)) ∧
    ((1 : ℚ) / 100) ≠ 0 := by
  refine ⟨by decide, ?_, by norm_num⟩
  norm_num [sensitivityAnalysis, sensitivityStep, origProbOf, setProb,
    calcNodeProb, findNode, zeroProbTree, zeroProbChildren, sortDescBy,
    insertDescBy, List.find?]

/-! ## Claim C8 -/

/-- Claim C8: model-boundary error contract, for the two cited model
boundaries.  A missing mission id yields a failed result; a valid mission
whose record set is empty yields a successful result with the zeroed (risk
matrix) or Low-level (FTA) payload; and the risk matrix run function is a
total function of the core Except value, surfacing any internal exception as
a failed result carrying the exception text and any normal return as a
successful result, so no exception escapes. -/
theorem model_boundary_contract :
    (∀ (events : List RMEvent) (topN : ℕ),
      runRiskMatrix none events topN = ⟨false, "mission_id 不能为空", none⟩) ∧
    (∀ (m : ℤ) (topN : ℕ),
      runRiskMatrix (some m) [] topN = ⟨true, "", some rmEmptyData⟩) ∧
    (∀ (m : ℤ) (events : List RMEvent) (topN : ℕ) (e : String),
      events ≠ [] → riskMatrixCore events topN = .error e →
      runRiskMatrix (some m) events topN = ⟨false, e, none⟩) ∧
    (∀ (m : ℤ) (events : List RMEvent) (topN : ℕ) (d : RMData),
      events ≠ [] → riskMatrixCore events topN = .ok d →
      runRiskMatrix (some m) events topN = ⟨true, "", some d⟩) ∧
    (∀ (fuel : ℕ) (nodes : List FTANode) (children : ℤ → List ℤ) (ds : ℤ),
      runFTA none fuel nodes children ds = ⟨false, "缺少mission_id", none⟩) ∧
    (∀ (m : ℤ) (fuel : ℕ) (nodes : List FTANode) (children : ℤ → List ℤ)
        (ds : ℤ), m ≠ 0 →
      runFTA (some m) fuel nodes children ds =
        ⟨true, "", some (runFTACore fuel nodes children ds)⟩) ∧
    (∀ (m : ℤ) (fuel : ℕ) (children : ℤ → List ℤ) (ds : ℤ), m ≠ 0 →
      runFTA (some m) fuel [] children ds =
        ⟨true, "", some ⟨"无数据", 0, 1, 1, 1, "Low"⟩⟩) := by
  refine ⟨?_, ?_, ?_, ?_, ?_, ?_, ?_⟩
  · intro events topN
    rfl
  · intro m topN
    rfl
  · intro m events topN e hne hcore
    obtain ⟨a, t, rfl⟩ := List.exists_cons_of_ne_nil hne
    simp [runRiskMatrix, hcore]
  · intro m events topN d hne hcore
    obtain ⟨a, t, rfl⟩ := List.exists_cons_of_ne_nil hne
    simp [runRiskMatrix, hcore]
  · intro fuel nodes children ds
    rfl
  · intro m fuel nodes children ds h
    simp [runFTA, h]
  · intro m fuel children ds h
    simp [runFTA, h, runFTACore]

/-- Witness for claim C8: an event with likelihood 6 drives the matrix
subscript out of range; the raised IndexError text is returned in a failed
result rather than escaping. -/
theorem model_boundary_contract_witness :
    runRiskMatrix (some 1) [⟨1, "bad", 6, 3⟩] 10 =
      ⟨false, "list index out of range", none⟩ :=
  model_boundary_contract.2.2.1 1 [⟨1, "bad", 6, 3⟩] 10
    "list index out of range" (by simp) (by rfl)

/-! ## Claim C4 -/

/-- Claim C4 fails on the code as stated: with every z-score zero but
differing sigmas, the correction factors 1 / (sigma * sqrt (2 pi)) differ
per indicator, so the corrected weight is not the normalized original
weight.  Two unit-weight indicators at their means with sigmas 1 and 2 give
the first indicator corrected weight 2 / 3, not 1 / 2. -/
theorem ahp_zero_z_counterexample :
    (∀ d ∈ ([⟨0, 1, 0, 1⟩, ⟨0, 1, 0, 2⟩] : List AHPIndicator), d.x = d.mu) ∧
    (([⟨0, 1, 0, 1⟩, ⟨0, 1, 0, 2⟩] : List AHPIndicator).map
      (fun d => d.w)).sum = 2 ∧
    correctedWeight [⟨0, 1, 0, 1⟩, ⟨0, 1, 0, 2⟩] ⟨0, 1, 0, 1⟩ = 2 / 3 ∧
    (2 : ℝ) / 3 ≠ (1 : ℝ) / 2 := by
  have hs0 : 0 < Real.sqrt (2 * Real.pi) := sqrtTwoPi_pos
  have hf1 : flooredSigma 1 = 1 := by
    unfold flooredSigma
    rw [if_neg]
    norm_num
  have hf2 : flooredSigma 2 = 2 := by
    unfold flooredSigma
    rw [if_neg]
    norm_num
  have hc1 : corrFactor ⟨0, 1, 0, 1⟩ = 1 / Real.sqrt (2 * Real.pi) := by
    rw [corrFactor_of_center ⟨0, 1, 0, 1⟩ rfl]
    show 1 / (flooredSigma 1 * Real.sqrt (2 * Real.pi)) = _
    rw [hf1, one_mul]
  have hc2 : corrFactor ⟨0, 1, 0, 2⟩ = 1 / (2 * Real.sqrt (2 * Real.pi)) := by
    rw [corrFactor_of_center ⟨0, 1, 0, 2⟩ rfl]
    show 1 / (flooredSigma 2 * Real.sqrt (2 * Real.pi)) = _
    rw [hf2]
  have hW : weightCorrectionSum [⟨0, 1, 0, 1⟩, ⟨0, 1, 0, 2⟩] =
      3 / (2 * Real.sqrt (2 * Real.pi)) := by
    unfold weightCorrectionSum
    rw [List.map_cons, List.map_cons, List.map_nil]
    rw [List.sum_cons, List.sum_cons, List.sum_nil]
    show 1 * corrFactor ⟨0, 1, 0, 1⟩ + (1 * corrFactor ⟨0, 1, 0, 2⟩ + 0) = _
    rw [hc1, hc2]
    field_simp
    ring
  have hWpos : 0 < weightCorrectionSum [⟨0, 1, 0, 1⟩, ⟨0, 1, 0, 2⟩] := by
    rw [hW]
    positivity
  refine ⟨?_, ?_, ?_, by norm_num⟩
  · intro d hd
    rcases List.mem_cons.mp hd with rfl | hd
    · rfl
    · rcases List.mem_cons.mp hd with rfl | hd
      · rfl
      · simp at hd
  · simp only [List.map_cons, List.map_nil, List.sum_cons, List.sum_nil]
    norm_num
  · unfold correctedWeight
    rw [if_pos hWpos, hc1, hW]
    show (1 : ℝ) * (1 / Real.sqrt (2 * Real.pi)) /
        (3 / (2 * Real.sqrt (2 * Real.pi))) = 2 / 3
    rw [one_mul]
    have hsne : Real.sqrt (2 * Real.pi) ≠ 0 := ne_of_gt hs0
    field_simp

/-- Claim C4 amended: when every indicator sits at its mean and all
indicators share one sigma value, all correction factors are equal, each
corrected weight equals the normalized original weight w over the weight
sum, and the corrected weights sum to exactly 1. -/
theorem ahp_equal_sigma_normalized_weights (ds : List AHPIndicator) (s0 : ℝ)
    (hx : ∀ d ∈ ds, d.x = d.mu) (hs : ∀ d ∈ ds, d.sigma = s0)
    (hw : 0 < (ds.map (fun d => d.w)).sum) :
    (∀ d ∈ ds, correctedWeight ds d = d.w / (ds.map (fun d => d.w)).sum) ∧
    (ds.map (fun d => correctedWeight ds d)).sum = 1 := by
  have hc0 : 0 < 1 / (flooredSigma s0 * Real.sqrt (2 * Real.pi)) :=
    div_pos one_pos (mul_pos (flooredSigma_pos s0) sqrtTwoPi_pos)
  have hcf : ∀ d ∈ ds,
      corrFactor d = 1 / (flooredSigma s0 * Real.sqrt (2 * Real.pi)) := by
    intro d hd
    rw [corrFactor_of_center d (hx d hd), hs d hd]
  have hmap : ds.map (fun d => d.w * corrFactor d) =
      ds.map (fun d => d.w * (1 / (flooredSigma s0 * Real.sqrt (2 * Real.pi)))) :=
    List.map_congr_left (fun d hd => by rw [hcf d hd])
  have hS : weightCorrectionSum ds =
      (ds.map (fun d => d.w)).sum * (1 / (flooredSigma s0 * Real.sqrt (2 * Real.pi))) := by
    unfold weightCorrectionSum
    rw [hmap, list_sum_map_mul_right]
  have hSpos : 0 < weightCorrectionSum ds := by
    rw [hS]
    exact mul_pos hw hc0
  have hcw : ∀ d ∈ ds,
      correctedWeight ds d = d.w / (ds.map (fun d => d.w)).sum := by
    intro d hd
    unfold correctedWeight
    rw [if_pos hSpos, hcf d hd, hS,
      mul_div_mul_right _ _ (ne_of_gt hc0)]
  refine ⟨hcw, ?_⟩
  have hmap2 : ds.map (fun d => correctedWeight ds d) =
      ds.map (fun d => d.w / (ds.map (fun d => d.w)).sum) :=
    List.map_congr_left (fun d hd => hcw d hd)
  rw [hmap2, list_sum_map_div, div_self (ne_of_gt hw)]

/-- Witness for the amended claim C4: one unit-weight indicator at its mean
with sigma 1 gets corrected weight equal to its normalized weight, and the
corrected weights sum to 1. -/
theorem ahp_equal_sigma_normalized_weights_witness :
    (∀ d ∈ ([⟨3, 1, 3, 1⟩] : List AHPIndicator),
      correctedWeight [⟨3, 1, 3, 1⟩] d =
        d.w / (([⟨3, 1, 3, 1⟩] : List AHPIndicator).map (fun d => d.w)).sum) ∧
    (([⟨3, 1, 3, 1⟩] : List AHPIndicator).map
      (fun d => correctedWeight [⟨3, 1, 3, 1⟩] d)).sum = 1 :=
  ahp_equal_sigma_normalized_weights [⟨3, 1, 3, 1⟩] 1
    (by intro d hd; rw [List.mem_singleton] at hd; rw [hd])
    (by intro d hd; rw [List.mem_singleton] at hd; rw [hd])
    (by simp)

/-! ## Claim C5 -/

/-- Claim C5 fails on the code for AHPImprovedModel._run_ahp: with a single
indicator of weight 0 the correction denominator is 0, and the fallback
corrected weight is w / n = 0, not the uniform 1 / n = 1. -/
theorem ahp_fallback_counterexample :
    ¬ 0 < weightCorrectionSum [⟨0, 0, 0, 1⟩] ∧
    correctedWeight [⟨0, 0, 0, 1⟩] ⟨0, 0, 0, 1⟩ = 0 ∧
    (1 : ℝ) / (([⟨0, 0, 0, 1⟩] : List AHPIndicator).length : ℝ) = 1 ∧
    (0 : ℝ) ≠ 1 := by
  have hW : weightCorrectionSum [⟨0, 0, 0, 1⟩] = 0 := by
    unfold weightCorrectionSum
    rw [List.map_cons, List.map_nil, List.sum_cons, List.sum_nil]
    show (0 : ℝ) * corrFactor ⟨0, 0, 0, 1⟩ + 0 = 0
    rw [zero_mul, add_zero]
  refine ⟨by rw [hW]; norm_num, ?_, by norm_num, by norm_num⟩
  unfold correctedWeight
  rw [if_neg (by rw [hW]; norm_num)]
  show (0 : ℝ) / _ = 0
  rw [zero_div]

/-- Claim C5 amended: when the correction denominator is not positive, the
fallback corrected weight in _run_ahp is w / n, the original weight divided
by the indicator count; with nonnegative weights the denominator can only
vanish when every weight is 0, so the fallback weight is then 0.  In
MonteCarloModel._calc_ahp_score the fallback is the uniform 1 / n as the
claim states. -/
theorem ahp_fallback_weight_over_n :
    (∀ (ds : List AHPIndicator) (d : AHPIndicator), d ∈ ds →
      ¬ 0 < weightCorrectionSum ds →
      correctedWeight ds d = d.w / (ds.length : ℝ) ∧
      ((∀ e ∈ ds, 0 ≤ e.w) → correctedWeight ds d = 0)) ∧
    (∀ (ds : List MCIndicator) (d : MCIndicator),
      ¬ 0 < mcWeightCorrectionSum ds →
      mcCorrectedWeight ds d = 1 / (ds.length : ℝ)) := by
  constructor
  · intro ds d hd hS
    have h1 : correctedWeight ds d = d.w / (ds.length : ℝ) := by
      unfold correctedWeight
      rw [if_neg hS]
    refine ⟨h1, ?_⟩
    intro hw
    rw [h1, ahp_weights_zero_of_not_pos ds hw hS d hd, zero_div]
  · intro ds d hS
    unfold mcCorrectedWeight
    rw [if_neg hS]

/-- Witness for the amended claim C5: both fallbacks applied to a single
zero-weight indicator. -/
theorem ahp_fallback_weight_over_n_witness :
    correctedWeight [⟨0, 0, 0, 1⟩] ⟨0, 0, 0, 1⟩ =
      (⟨0, 0, 0, 1⟩ : AHPIndicator).w /
        (([⟨0, 0, 0, 1⟩] : List AHPIndicator).length : ℝ) ∧
    mcCorrectedWeight [⟨0, 0, 0, 1⟩] ⟨0, 0, 0, 1⟩ =
      1 / (([⟨0, 0, 0, 1⟩] : List MCIndicator).length : ℝ) :=
  ⟨(ahp_fallback_weight_over_n.1 [⟨0, 0, 0, 1⟩] ⟨0, 0, 0, 1⟩ (by simp)
      (by simp [weightCorrectionSum])).1,
   ahp_fallback_weight_over_n.2 [⟨0, 0, 0, 1⟩] ⟨0, 0, 0, 1⟩
      (by simp [mcWeightCorrectionSum])⟩

/-! ## Claim C6 -/

theorem sigmoid_mem_unit (t : ℝ) :
    0 ≤ 1 / (1 + Real.exp t) ∧ 1 / (1 + Real.exp t) ≤ 1 := by
  have he := Real.exp_pos t
  constructor
  · positivity
  · rw [div_le_one (by positivity)]
    linarith

/-- Claim C6: with nonnegative weights the composite AHP score lies in
[0, 1] for every risk direction and every input values, means and sigmas,
and the reported risk level is the threshold mapping of the score at 0.25,
0.5 and 0.75. -/
theorem ahp_total_score_range (direction : String) (ds : List AHPIndicator)
    (hw : ∀ d ∈ ds, 0 ≤ d.w) :
    0 ≤ totalScore direction ds ∧ totalScore direction ds ≤ 1 ∧
    (totalScore direction ds < 0.25 →
      scoreToLevel (totalScore direction ds) = "Low") ∧
    (0.25 ≤ totalScore direction ds → totalScore direction ds < 0.5 →
      scoreToLevel (totalScore direction ds) = "Medium") ∧
    (0.5 ≤ totalScore direction ds → totalScore direction ds < 0.75 →
      scoreToLevel (totalScore direction ds) = "High") ∧
    (0.75 ≤ totalScore direction ds →
      scoreToLevel (totalScore direction ds) = "Extreme") := by
  have hr : ∀ d : AHPIndicator,
      0 ≤ normalizedRisk direction d ∧ normalizedRisk direction d ≤ 1 := by
    intro d
    unfold normalizedRisk
    split_ifs
    · exact sigmoid_mem_unit (-zScore d)
    · exact sigmoid_mem_unit (zScore d)
    · exact sigmoid_mem_unit (-|zScore d|)
  have hcw : ∀ d ∈ ds, 0 ≤ correctedWeight ds d := by
    intro d hd
    unfold correctedWeight
    split_ifs with h
    · exact div_nonneg (mul_nonneg (hw d hd) (le_of_lt (corrFactor_pos d)))
        (le_of_lt h)
    · exact div_nonneg (hw d hd) (Nat.cast_nonneg _)
  have h0 : 0 ≤ totalScore direction ds := by
    unfold totalScore
    apply List.sum_nonneg
    intro x hx
    rcases List.mem_map.mp hx with ⟨d, hd, rfl⟩
    exact mul_nonneg (hcw d hd) (hr d).1
  have hsumw : (ds.map (fun d => correctedWeight ds d)).sum ≤ 1 := by
    by_cases h : 0 < weightCorrectionSum ds
    · have hmap : ds.map (fun d => correctedWeight ds d) =
          ds.map (fun d => d.w * corrFactor d / weightCorrectionSum ds) :=
        List.map_congr_left (fun d _ => by
          unfold correctedWeight
          rw [if_pos h])
      have hrfl : (ds.map (fun d => d.w * corrFactor d)).sum =
          weightCorrectionSum ds := rfl
      rw [hmap, list_sum_map_div, hrfl, div_self (ne_of_gt h)]
    · have hz := ahp_weights_zero_of_not_pos ds hw h
      have hmap : ds.map (fun d => correctedWeight ds d) =
          ds.map (fun _ => (0 : ℝ)) :=
        List.map_congr_left (fun d hd => by
          unfold correctedWeight
          rw [if_neg h, hz d hd, zero_div])
      rw [hmap]
      simp
  have h1 : totalScore direction ds ≤ 1 := by
    unfold totalScore
    calc (ds.map (fun d => correctedWeight ds d * normalizedRisk direction d)).sum
        ≤ (ds.map (fun d => correctedWeight ds d)).sum :=
          List.sum_le_sum (fun d hd =>
            mul_le_of_le_one_right (hcw d hd) (hr d).2)
      _ ≤ 1 := hsumw
  refine ⟨h0, h1, ?_, ?_, ?_, ?_⟩
  · intro ha
    unfold scoreToLevel
    rw [if_pos ha]
  · intro ha hb
    unfold scoreToLevel
    split_ifs <;> first | rfl | linarith
  · intro ha hb
    unfold scoreToLevel
    split_ifs <;> first | rfl | linarith
  · intro ha
    unfold scoreToLevel
    split_ifs <;> first | rfl | linarith

/-- Witness for claim C6: the range and threshold statements applied to one
unit-weight indicator at its mean under the default risk direction. -/
theorem ahp_total_score_range_witness :
    0 ≤ totalScore "higher_worse" [⟨0, 1, 0, 1⟩] ∧
    totalScore "higher_worse" [⟨0, 1, 0, 1⟩] ≤ 1 ∧
    (totalScore "higher_worse" [⟨0, 1, 0, 1⟩] < 0.25 →
      scoreToLevel (totalScore "higher_worse" [⟨0, 1, 0, 1⟩]) = "Low") ∧
    (0.25 ≤ totalScore "higher_worse" [⟨0, 1, 0, 1⟩] →
      totalScore "higher_worse" [⟨0, 1, 0, 1⟩] < 0.5 →
      scoreToLevel (totalScore "higher_worse" [⟨0, 1, 0, 1⟩]) = "Medium") ∧
    (0.5 ≤ totalScore "higher_worse" [⟨0, 1, 0, 1⟩] →
      totalScore "higher_worse" [⟨0, 1, 0, 1⟩] < 0.75 →
      scoreToLevel (totalScore "higher_worse" [⟨0, 1, 0, 1⟩]) = "High") ∧
    (0.75 ≤ totalScore "higher_worse" [⟨0, 1, 0, 1⟩] →
      scoreToLevel (totalScore "higher_worse" [⟨0, 1, 0, 1⟩]) = "Extreme") :=
  ahp_total_score_range "higher_worse" [⟨0, 1, 0, 1⟩]
    (by intro d hd; rw [List.mem_singleton] at hd; rw [hd]; norm_num)

/-! ## Claim C7 -/

theorem zipWith_replicate_length (f : ℝ → ℝ → ℝ) (c : ℝ) :
    ∀ l : List ℝ,
      List.zipWith f l (List.replicate l.length c) = l.map (fun v => f v c) := by
  intro l
  induction l with
  | nil => rfl
  | cons a t ih => simp [List.replicate_succ, ih]

/-- Claim C7 fails on the code: declared probs whose lengths match the
values are used as given even when they do not sum to 1.  For values
[0, 1] with probs [0.5, 0.1] (sum 0.6) the derived mu is 0.1, not the 0.5
the uniform replacement would give. -/
theorem discrete_probs_sum_counterexample :
    ([1 / 2, 1 / 10] : List ℝ).sum ≠ 1 ∧
    (discreteMuSigma [0, 1] [1 / 2, 1 / 10]).1 = 1 / 10 ∧
    (discreteMuSigma [0, 1] (List.replicate 2 ((1 : ℝ) / 2))).1 = 1 / 2 ∧
    ((1 : ℝ) / 10) ≠ 1 / 2 := by
  refine ⟨by norm_num, ?_, ?_, by norm_num⟩
  · simp only [discreteMuSigma]
    rw [if_neg (by norm_num)]
    norm_num
  · simp only [discreteMuSigma]
    rw [if_neg (by simp)]
    norm_num [List.replicate_succ]

/-- Claim C7 amended: the discrete branch of _get_mu_sigma replaces probs
with the uniform distribution exactly when the probs length differs from the
values length; when the lengths match the declared probs are used as given
(whether or not they sum to 1), mu is the prob-weighted mean and sigma the
square root of the clamped prob-weighted variance; under the uniform
replacement mu is the plain mean of the values. -/
theorem discrete_mu_sigma_spec (values probs : List ℝ) :
    (probs.length = values.length →
      (discreteMuSigma values probs).1 =
        (List.zipWith (fun v p => v * p) values probs).sum ∧
      (discreteMuSigma values probs).2 =
        Real.sqrt (max 0 ((List.zipWith
          (fun v p =>
            p * (v - (List.zipWith (fun v p => v * p) values probs).sum) ^ 2)
          values probs).sum))) ∧
    (probs.length ≠ values.length →
      discreteMuSigma values probs =
        discreteMuSigma values
          (List.replicate values.length ((1 : ℝ) / (values.length : ℝ)))) ∧
    (probs.length ≠ values.length → values ≠ [] →
      (discreteMuSigma values probs).1 = values.sum / (values.length : ℝ)) := by
  refine ⟨?_, ?_, ?_⟩
  · intro h
    simp only [discreteMuSigma]
    rw [if_neg (by simp [h])]
    exact ⟨rfl, rfl⟩
  · intro h
    simp only [discreteMuSigma]
    rw [if_pos h, if_neg (by simp)]
  · intro h _
    simp only [discreteMuSigma]
    rw [if_pos h, zipWith_replicate_length, list_sum_map_mul_right,
      mul_one_div]
    simp

/-- Witness for the amended claim C7: probs of matching length are used as
given. -/
theorem discrete_mu_sigma_spec_witness :
    (discreteMuSigma [0, 1] [1 / 4, 3 / 4]).1 =
      (List.zipWith (fun v p => v * p) [(0 : ℝ), 1] [1 / 4, 3 / 4]).sum :=
  ((discrete_mu_sigma_spec [0, 1] [1 / 4, 3 / 4]).1 (by rfl)).1

end PyFac
